import Mathlib

/-!
Shallow embedding of the ComputeMesh backend connection manager
(`ComputeMesh_Backend/command_dispatcher.py`, with the caller-side wait of
`ComputeMesh_Backend/main.py`), together with proofs checking the
specification claims about it.

Modelling conventions:
* Python dictionaries become association lists with first-match lookup;
  assignment is modelled as cons-after-erase, which keeps keys without
  duplicates; `active_providers` (a Python set) becomes a `List Int`
  with membership-guarded insertion.
* WebSocket transports are opaque numeric handles; the effect of
  `websocket.close(...)` / `websocket.accept()` is recorded in an event log
  so that ordering claims can be stated.
* `asyncio.Future` result slots live in a `slots` map keyed by command id.
  The slot survives removal of the `pending_commands` entry, exactly as the
  Python future object survives because the waiting caller holds it.
* The single-threaded asyncio event loop means each manager method runs
  without interleaving between its own statements (every `await` inside a
  method body either holds the lock or touches no shared state), so each
  method is a plain state-transition function.
-/

/-- JSON values, the payloads carried by WebSocket text frames. -/
inductive JsonVal where
  | null
  | bool (b : Bool)
  | num (n : Int)
  | str (s : String)
  | arr (xs : List JsonVal)
  | obj (fields : List (String × JsonVal))

/-- Association-list lookup, first match wins (Python dict `get` / `[]`). -/
def aget {κ ν : Type} [DecidableEq κ] (k : κ) : List (κ × ν) → Option ν
  | [] => none
  | (k2, v) :: rest => if k2 = k then some v else aget k rest

/-- Remove every entry with the given key (Python dict `pop`, key side). -/
def aerase {κ ν : Type} [DecidableEq κ] (k : κ) : List (κ × ν) → List (κ × ν)
  | [] => []
  | p :: rest => if p.1 = k then aerase k rest else p :: aerase k rest

/-- Dict assignment `d[k] = v`: the new binding shadows and drops any old one. -/
def aset {κ ν : Type} [DecidableEq κ] (k : κ) (v : ν) (l : List (κ × ν)) :
    List (κ × ν) :=
  (k, v) :: aerase k l

/-- Python exceptions that the dispatcher raises or stores in futures. -/
inductive PyError where
  | connectionError (msg : String)
  | typeError (msg : String)

/-- State of one `asyncio.Future` result slot: single-assignment container. -/
inductive Slot where
  | unresolved
  | value (payload : JsonVal)
  | errored (e : PyError)
  | cancelled

/-- True when the future is done (`future.done()` in Python). -/
def Slot.isDone : Slot → Bool
  | .unresolved => false
  | _ => true

/-- Close / accept events on WebSocket transports, in program order. -/
inductive Event where
  | close (ws : Nat) (code : Nat) (reason : String)
  | accept (ws : Nat)

/-- State of `ConnectionManager` (command_dispatcher.py lines 16-25), plus
the future store and the transport event log used by the model. -/
structure MState where
  active_connections : List (Int × Nat)
  pending_commands : List (String × Int)
  active_providers : List Int
  provider_http_endpoints : List (Int × String)
  slots : List (String × Slot)
  log : List Event

/-- Initial manager state (`ConnectionManager.__init__`). -/
def initState : MState :=
  { active_connections := [], pending_commands := [], active_providers := [],
    provider_http_endpoints := [], slots := [], log := [] }

/-- Python `str.startswith(pre)`, over the character list so that concrete
instances reduce in the kernel. -/
def startsWithStr (s pre : String) : Bool :=
  pre.toList.isPrefixOf s.toList

/-- Python `str.rstrip(c)`: drop trailing occurrences of a slash. -/
def rstripSlash (s : String) : String :=
  String.mk ((s.toList.reverse.dropWhile (fun c => c = '/')).reverse)

/-- Close-existing-connection block of `ConnectionManager.connect`
(command_dispatcher.py lines 30-43): pop the old transport, drop provider
membership and endpoint when the identity was a provider, and close the old
transport with code 1001 and reason "New connection established". -/
def connect_supersede (st : MState) (user_id : Int) : MState :=
  match aget user_id st.active_connections with
  | none => st
  | some oldWs =>
    let st1 := { st with
      active_connections := aerase user_id st.active_connections }
    let st2 :=
      if user_id ∈ st1.active_providers then
        { st1 with
          active_providers := st1.active_providers.filter (fun u => u ≠ user_id),
          provider_http_endpoints :=
            aerase user_id st1.provider_http_endpoints }
      else st1
    { st2 with
      log := st2.log ++ [Event.close oldWs 1001 "New connection established"] }

/-- Accept-and-register block of `ConnectionManager.connect`
(command_dispatcher.py lines 45-60): accept the new websocket, install it,
then record provider status and the HTTP endpoint, the latter only when the
supplied URL passes the `startswith` check. -/
def connect_install (st : MState) (ws : Nat) (user_id : Int)
    (user_type : String) (http_base_url : Option String) : MState :=
  let st1 := { st with
    log := st.log ++ [Event.accept ws],
    active_connections := aset user_id ws st.active_connections }
  if user_type = "provider" then
    let st2 := { st1 with
      active_providers :=
        if user_id ∈ st1.active_providers then st1.active_providers
        else user_id :: st1.active_providers }
    match http_base_url with
    | some u =>
      if startsWithStr u "http://" || startsWithStr u "https" then
        { st2 with
          provider_http_endpoints :=
            aset user_id (rstripSlash u) st2.provider_http_endpoints }
      else st2
    | none => st2
  else
    { st1 with
      provider_http_endpoints := aerase user_id st1.provider_http_endpoints }

/-- `ConnectionManager.connect` (command_dispatcher.py lines 27-65): the
supersede block followed by the install block.  The spawned heartbeat task is
modelled separately by `heartbeat_iter`. -/
def connect (st : MState) (ws : Nat) (user_id : Int) (user_type : String)
    (http_base_url : Option String) : MState :=
  connect_install (connect_supersede st user_id) ws user_id user_type
    http_base_url

/-- ConnectionError stored by `disconnect` into a pending future
(command_dispatcher.py line 95). -/
def connLost (user_id : Int) : PyError :=
  .connectionError ("User " ++ toString user_id ++
    " disconnected while waiting for response.")

/-- Body of one pass of the cancellation loop of
`ConnectionManager.disconnect` (command_dispatcher.py lines 89-99): pop the
entry for the command id and, when the entry was still present and its future
not done, store a ConnectionError in the future. -/
def cancelOne (user_id : Int) (c : String) (st : MState) : MState :=
  let entryFound := (aget c st.pending_commands).isSome
  let st1 := { st with pending_commands := aerase c st.pending_commands }
  if entryFound then
    match aget c st1.slots with
    | some Slot.unresolved =>
      { st1 with slots := aset c (.errored (connLost user_id)) st1.slots }
    | _ => st1
  else st1

/-- Cancellation loop of `ConnectionManager.disconnect`
(command_dispatcher.py lines 89-99), over the collected command ids. -/
def cancelCmds (user_id : Int) : List String → MState → MState
  | [], st => st
  | c :: rest, st => cancelCmds user_id rest (cancelOne user_id c st)

/-- `ConnectionManager.disconnect` (command_dispatcher.py lines 67-99):
pop the connection and the endpoint, discard provider membership, then cancel
every pending command whose stored owner is this user. -/
def disconnect (st : MState) (user_id : Int) : MState :=
  let st1 := { st with
    active_connections := aerase user_id st.active_connections,
    provider_http_endpoints := aerase user_id st.provider_http_endpoints,
    active_providers := st.active_providers.filter (fun u => u ≠ user_id) }
  let commands_to_cancel :=
    (st1.pending_commands.filter (fun p => p.2 = user_id)).map (fun p => p.1)
  cancelCmds user_id commands_to_cancel st1

/-- `ConnectionManager.send_command` (command_dispatcher.py lines 151-183).
The fresh uuid4 command id is passed in as `cid`; `sendOk` is the outcome of
the `websocket.send_text` call.  Returns the post-state and, on failure, the
raised ConnectionError.  On success the future for `cid` is installed
unresolved and the pending entry records the owner; on send failure the entry
is popped again and the future receives the exception. -/
def send_command (st : MState) (user_id : Int) (cid : String)
    (sendOk : Bool) : MState × Option PyError :=
  match aget user_id st.active_connections with
  | none =>
    (st, some (.connectionError
      ("User " ++ toString user_id ++ " is not connected")))
  | some _ws =>
    let st1 := { st with
      pending_commands := aset cid user_id st.pending_commands,
      slots := aset cid .unresolved st.slots }
    if sendOk then (st1, none)
    else
      let entryFound := (aget cid st1.pending_commands).isSome
      let st2 := { st1 with pending_commands := aerase cid st1.pending_commands }
      let st3 :=
        if entryFound then
          match aget cid st2.slots with
          | some .unresolved =>
            { st2 with
              slots := aset cid
                (.errored (.connectionError "send failed")) st2.slots }
          | _ => st2
        else st2
      (st3, some (.connectionError
        ("Failed to send command to user " ++ toString user_id)))

/-- Timeout expiry of `await asyncio.wait_for(future, timeout=...)`
(main.py line 99, command_dispatcher.py line 202): when the deadline passes
with the future not yet done, `wait_for` cancels the future and raises
`asyncio.TimeoutError` to the caller; a future already done is returned
instead.  Nothing here touches `pending_commands`. -/
def wait_for_timeout (st : MState) (cid : String) : MState :=
  match aget cid st.slots with
  | some .unresolved => { st with slots := aset cid .cancelled st.slots }
  | _ => st

/-- Inbound WebSocket text frame as seen by `receive_response`: either text
that `json.loads` rejects, or the parsed JSON value. -/
inductive InMsg where
  | malformed (raw : String)
  | parsed (v : JsonVal)

/-- Python truthiness of a JSON value (`if not command_id`). -/
def truthy : JsonVal → Bool
  | .null => false
  | .bool b => b
  | .num n => n ≠ 0
  | .str s => s ≠ ""
  | .arr xs => !xs.isEmpty
  | .obj fs => !fs.isEmpty

/-- True for JSON values that are hashable Python objects (usable as a dict
key); lists and dicts are not. -/
def jsonHashable : JsonVal → Bool
  | .arr _ => false
  | .obj _ => false
  | _ => true

/-- Check `data.get("type") == "pong"`. -/
def isPongField : Option JsonVal → Bool
  | some (.str s) => s = "pong"
  | _ => false

/-- Parse stage of `ConnectionManager.receive_response`
(command_dispatcher.py lines 229-249), the region wrapped in try/except:
malformed text (JSONDecodeError), a non-dict top level (AttributeError from
`.get`, caught by the broad handler), a pong frame, and a missing or falsy
`command_id` all lead to an early `return`; otherwise the command id and the
`result` field (absent mapped to JSON null, as `data.get` yields None) are
handed to the delivery stage. -/
def rr_parse : InMsg → Option (JsonVal × JsonVal)
  | .malformed _ => none
  | .parsed v =>
    match v with
    | .obj fields =>
      let command_id := aget "command_id" fields
      if isPongField (aget "type" fields) then none
      else
        match command_id with
        | none => none
        | some cid =>
          if truthy cid then some (cid, (aget "result" fields).getD .null)
          else none
    | _ => none

/-- Delivery stage of `ConnectionManager.receive_response`
(command_dispatcher.py lines 251-272): pop the entry for the string command
id; when the entry was found and the future undone, the future receives the
`result` payload; a done future or a missing entry is only logged. -/
def deliver (st : MState) (c : String) (res : JsonVal) : MState :=
  match aget c st.pending_commands with
  | none => st
  | some _uid =>
    let st1 := { st with pending_commands := aerase c st.pending_commands }
    match aget c st1.slots with
    | some Slot.unresolved =>
      { st1 with slots := aset c (.value res) st1.slots }
    | _ => st1

/-- `ConnectionManager.receive_response` (command_dispatcher.py lines
226-272): the parse stage, then the delivery stage.  The
`pending_commands.pop` on line 253 sits OUTSIDE the try/except, so a truthy
unhashable command id (a JSON array or object) raises TypeError out of the
method; a hashable non-string id never equals the string keys of the table
and pops nothing. -/
def receive_response (st : MState) (msg : InMsg) : Except PyError MState :=
  match rr_parse msg with
  | none => .ok st
  | some (cid, res) =>
    if jsonHashable cid then
      match cid with
      | .str c => .ok (deliver st c res)
      | _ => .ok st
    else .error (.typeError "unhashable type")

/-- Outcome of the ping write attempted by one heartbeat iteration. -/
inductive SendOutcome where
  | ok
  | wsDisconnect
  | sendErr

/-- Result of one heartbeat iteration: keep looping or exit the loop. -/
inductive HBResult where
  | cont
  | stop

/-- One iteration of `ConnectionManager.heartbeat` (command_dispatcher.py
lines 102-148): verify the connection is still the registered one for the
identity (the checks before and after the sleep), then send the ping.  On
`WebSocketDisconnect` or any other send error the task only logs and breaks
out of the loop; it does NOT call `disconnect`, leaving cleanup to the
read-loop handler of main.py. -/
def heartbeat_iter (st : MState) (user_id : Int) (ws : Nat)
    (outcome : SendOutcome) : MState × HBResult :=
  if aget user_id st.active_connections ≠ some ws then (st, .stop)
  else
    match outcome with
    | .ok => (st, .cont)
    | .wsDisconnect => (st, .stop)
    | .sendErr => (st, .stop)

/-- Cleanup in the `finally` block of `websocket_endpoint` (main.py lines
463-464): whatever ends the read loop, the handler calls
`manager.disconnect(user.id)`. -/
def ws_endpoint_cleanup (st : MState) (user_id : Int) : MState :=
  disconnect st user_id

/-- Per-recipient wait used by `broadcast_command`
(command_dispatcher.py line 202): the timeout handed to `asyncio.wait_for`
is the literal 30, not a caller-supplied parameter. -/
def broadcast_recipient_timeout : Nat := 30

/-- Outcome of `send_and_wait` for one broadcast recipient: the reply value,
a timeout, a ConnectionError from `send_command` or from the future, a JSON
decode failure of the reply string, or any other exception. -/
inductive BOutcome where
  | reply (v : JsonVal)
  | timeout
  | connError (msg : String)
  | jsonError (msg : String)
  | otherError (msg : String)

/-- Map one recipient outcome to the entry recorded for that recipient
(the except arms of `send_and_wait`, command_dispatcher.py lines 199-212). -/
def send_and_wait_entry : BOutcome → JsonVal
  | .reply v => v
  | .timeout => .obj [("error", .str "Timeout waiting for response.")]
  | .connError m => .obj [("error", .str m)]
  | .jsonError m => .obj [("error", .str m)]
  | .otherError _ =>
    .obj [("error", .str "Unexpected server error during broadcast.")]

/-- `ConnectionManager.broadcast_command` (command_dispatcher.py lines
185-224): snapshot the connected identities under the lock, run one
`send_and_wait` per identity concurrently, and collect one entry per
identity.  The network and scheduling are abstracted by the `outcome`
oracle giving each recipient its wait outcome. -/
def broadcast_command (st : MState) (outcome : Int → BOutcome) :
    List (Int × JsonVal) :=
  let user_ids_to_send := st.active_connections.map (fun p => p.1)
  user_ids_to_send.map (fun uid => (uid, send_and_wait_entry (outcome uid)))

/-- `ConnectionManager.get_random_provider_info` (command_dispatcher.py
lines 279-294).  `random.choice` is modelled by an arbitrary index `k` into
the eligible list; the final falsy check on the endpoint mirrors the
defensive `if not endpoint` of the source. -/
def get_random_provider_info (k : Nat) (st : MState) :
    Option (Int × String) :=
  if st.active_providers.isEmpty then none
  else
    let eligible := st.active_providers.filter
      (fun pid => (aget pid st.provider_http_endpoints).isSome)
    if eligible.isEmpty then none
    else
      let chosen := eligible.getD (k % eligible.length) 0
      match aget chosen st.provider_http_endpoints with
      | none => none
      | some endpoint =>
        if endpoint = "" then none else some (chosen, endpoint)

/-- `ConnectionManager.get_random_provider_id` (command_dispatcher.py lines
296-300): uniform choice over all providers, endpoint not required. -/
def get_random_provider_id (k : Nat) (st : MState) : Option Int :=
  if st.active_providers.isEmpty then none
  else
    some (st.active_providers.getD
      (k % st.active_providers.length) 0)

/-! ## Association-list lemmas -/

theorem aget_aset_eq {κ ν : Type} [DecidableEq κ] (k : κ) (v : ν)
    (l : List (κ × ν)) : aget k (aset k v l) = some v := by
  simp [aset, aget]

theorem aget_aerase_eq {κ ν : Type} [DecidableEq κ] (k : κ)
    (l : List (κ × ν)) : aget k (aerase k l) = none := by
  induction l with
  | nil => simp [aerase, aget]
  | cons p rest ih =>
    by_cases h : p.1 = k
    · simp [aerase, h, ih]
    · simp [aerase, h, aget, ih]

theorem aget_aerase_ne {κ ν : Type} [DecidableEq κ] {k k2 : κ}
    (l : List (κ × ν)) (h : k2 ≠ k) : aget k2 (aerase k l) = aget k2 l := by
  induction l with
  | nil => simp [aerase, aget]
  | cons p rest ih =>
    by_cases hp : p.1 = k
    · have hne : k ≠ k2 := fun e => h e.symm
      simp [aerase, hp, aget, hne, ih]
    · by_cases hq : p.1 = k2
      · simp [aerase, hp, aget, hq, h]
      · simp [aerase, hp, aget, hq, ih]

theorem aget_aset_ne {κ ν : Type} [DecidableEq κ] {k k2 : κ} (v : ν)
    (l : List (κ × ν)) (h : k2 ≠ k) : aget k2 (aset k v l) = aget k2 l := by
  have : k ≠ k2 := fun e => h e.symm
  simp [aset, aget, this, aget_aerase_ne l h]

/-- Membership of a key after erasing another key. -/
theorem aget_aerase_cases {κ ν : Type} [DecidableEq κ] (k k2 : κ)
    (l : List (κ × ν)) :
    aget k2 (aerase k l) = if k2 = k then none else aget k2 l := by
  by_cases h : k2 = k
  · simp [h, aget_aerase_eq]
  · simp [h, aget_aerase_ne l h]

/-! ## Slot single-assignment: per-operation preservation lemmas

Each lemma states that an operation leaves a slot that is already resolved
(done) exactly as it was. -/

theorem connect_supersede_slots (st : MState) (uid : Int) :
    (connect_supersede st uid).slots = st.slots := by
  unfold connect_supersede
  cases aget uid st.active_connections with
  | none => rfl
  | some oldWs =>
    by_cases h : uid ∈ st.active_providers <;> simp [h]

theorem connect_install_slots (st : MState) (ws : Nat) (uid : Int)
    (t : String) (url : Option String) :
    (connect_install st ws uid t url).slots = st.slots := by
  unfold connect_install
  by_cases ht : t = "provider"
  · cases url with
    | none => simp [ht]
    | some u =>
      by_cases hu : startsWithStr u "http://" || startsWithStr u "https" <;>
        simp [ht, hu]
  · simp [ht]

theorem connect_slots (st : MState) (ws : Nat) (uid : Int) (t : String)
    (url : Option String) : (connect st ws uid t url).slots = st.slots := by
  unfold connect
  rw [connect_install_slots, connect_supersede_slots]

theorem cancelOne_slots_pres (uid : Int) (c : String) (st : MState)
    (cid : String) (o : Slot) (ho : o ≠ Slot.unresolved)
    (h : aget cid st.slots = some o) :
    aget cid (cancelOne uid c st).slots = some o := by
  unfold cancelOne
  by_cases hf : (aget c st.pending_commands).isSome
  · simp only [hf, if_true]
    rcases hsl : aget c st.slots with _ | s
    · simp [hsl, h]
    · cases s with
      | unresolved =>
        have hcc : c ≠ cid := by
          intro e; rw [e, h] at hsl; exact ho (Option.some.inj hsl)
        have : cid ≠ c := fun e => hcc e.symm
        simp [hsl, aget_aset_ne _ _ this, h]
      | value p => simp [hsl, h]
      | errored e => simp [hsl, h]
      | cancelled => simp [hsl, h]
  · simp [hf, h]

theorem cancelCmds_slots_pres (uid : Int) (cmds : List String) (st : MState)
    (cid : String) (o : Slot) (ho : o ≠ Slot.unresolved)
    (h : aget cid st.slots = some o) :
    aget cid (cancelCmds uid cmds st).slots = some o := by
  induction cmds generalizing st with
  | nil => simpa [cancelCmds] using h
  | cons c rest ih =>
    unfold cancelCmds
    exact ih _ (cancelOne_slots_pres uid c st cid o ho h)

theorem disconnect_slots_pres (st : MState) (uid : Int) (cid : String)
    (o : Slot) (ho : o ≠ Slot.unresolved) (h : aget cid st.slots = some o) :
    aget cid (disconnect st uid).slots = some o := by
  unfold disconnect
  exact cancelCmds_slots_pres uid _ _ cid o ho h

theorem send_command_slots_pres (st : MState) (uid : Int) (c : String)
    (sendOk : Bool) (hfresh : aget c st.slots = none) (cid : String)
    (o : Slot) (_ho : o ≠ Slot.unresolved) (h : aget cid st.slots = some o) :
    aget cid (send_command st uid c sendOk).1.slots = some o := by
  have hcc : cid ≠ c := by
    intro e; rw [e, hfresh] at h; exact Option.noConfusion h
  unfold send_command
  cases aget uid st.active_connections with
  | none => simpa using h
  | some ws =>
    by_cases hs : sendOk
    · simp [hs, aget_aset_ne _ _ hcc, h]
    · simp only [hs, if_false, Bool.false_eq_true]
      rcases aget c (aset c uid st.pending_commands) with _ | u <;>
        simp_all [aget_aset_ne _ _ hcc, aget_aset_eq, h]

theorem wait_for_timeout_slots_pres (st : MState) (c : String)
    (cid : String) (o : Slot) (ho : o ≠ Slot.unresolved)
    (h : aget cid st.slots = some o) :
    aget cid (wait_for_timeout st c).slots = some o := by
  unfold wait_for_timeout
  rcases hsl : aget c st.slots with _ | s
  · simpa [hsl] using h
  · cases s with
    | unresolved =>
      have hcc : cid ≠ c := by
        intro e; rw [e, hsl] at h; exact ho (Option.some.inj h).symm
      simp [hsl, aget_aset_ne _ _ hcc, h]
    | value p => simpa [hsl] using h
    | errored e => simpa [hsl] using h
    | cancelled => simpa [hsl] using h

theorem deliver_slots_pres (st : MState) (c : String) (res : JsonVal)
    (cid : String) (o : Slot) (ho : o ≠ Slot.unresolved)
    (h : aget cid st.slots = some o) :
    aget cid (deliver st c res).slots = some o := by
  unfold deliver
  rcases hp : aget c st.pending_commands with _ | u
  · exact h
  · rcases hsl : aget c st.slots with _ | sl
    · simp [hsl, h]
    · cases sl with
      | unresolved =>
        have hcc : cid ≠ c := by
          intro e; rw [e, hsl] at h
          exact ho (Option.some.inj h).symm
        simp [hsl, aget_aset_ne _ _ hcc, h]
      | value p => simp [hsl, h]
      | errored e => simp [hsl, h]
      | cancelled => simp [hsl, h]

/-- Every successful run of `receive_response` either leaves the state
unchanged or is a delivery for some string command id. -/
theorem receive_response_ok_cases (st : MState) (msg : InMsg) (st2 : MState)
    (hok : receive_response st msg = .ok st2) :
    st2 = st ∨ ∃ c res, st2 = deliver st c res := by
  unfold receive_response at hok
  cases hpar : rr_parse msg with
  | none => rw [hpar] at hok; exact .inl (Except.ok.inj hok).symm
  | some pr =>
    obtain ⟨c, res⟩ := pr
    rw [hpar] at hok
    dsimp only at hok
    by_cases hh : jsonHashable c = true
    · rw [if_pos hh] at hok
      cases c with
      | str s2 => exact .inr ⟨s2, res, (Except.ok.inj hok).symm⟩
      | null => exact .inl (Except.ok.inj hok).symm
      | bool b => exact .inl (Except.ok.inj hok).symm
      | num n => exact .inl (Except.ok.inj hok).symm
      | arr xs => simp [jsonHashable] at hh
      | obj fs => simp [jsonHashable] at hh
    · rw [if_neg hh] at hok; exact Except.noConfusion hok

theorem receive_response_slots_pres (st : MState) (msg : InMsg)
    (st2 : MState) (hok : receive_response st msg = .ok st2) (cid : String)
    (o : Slot) (ho : o ≠ Slot.unresolved) (h : aget cid st.slots = some o) :
    aget cid st2.slots = some o := by
  rcases receive_response_ok_cases st msg st2 hok with he | ⟨c, res, he⟩
  · rw [he]; exact h
  · rw [he]; exact deliver_slots_pres st c res cid o ho h

/-! ## Operations as a step machine -/

/-- One dispatcher operation affecting manager state. -/
inductive Op where
  | opConnect (ws : Nat) (uid : Int) (utype : String) (url : Option String)
  | opDisconnect (uid : Int)
  | opSend (uid : Int) (cid : String) (sendOk : Bool)
  | opRecv (msg : InMsg)
  | opTimeout (cid : String)

/-- Apply one operation to the state.  A TypeError escaping
`receive_response` happens before the table pop, so it leaves the state
unchanged. -/
def applyOp (st : MState) : Op → MState
  | .opConnect ws uid t url => connect st ws uid t url
  | .opDisconnect uid => disconnect st uid
  | .opSend uid cid sendOk => (send_command st uid cid sendOk).1
  | .opRecv m =>
    match receive_response st m with
    | .ok s => s
    | .error _ => st
  | .opTimeout cid => wait_for_timeout st cid

/-- Freshness of a generated uuid4 command id: a send allocates a command id
that has never had a future. -/
def opFresh (st : MState) : Op → Prop
  | .opSend _ cid _ => aget cid st.slots = none
  | _ => True

/-- Apply a sequence of operations, left to right. -/
def applyOps : MState → List Op → MState
  | st, [] => st
  | st, op :: rest => applyOps (applyOp st op) rest

/-- Freshness along a whole run. -/
def opsFresh : MState → List Op → Prop
  | _, [] => True
  | st, op :: rest => opFresh st op ∧ opsFresh (applyOp st op) rest

theorem applyOp_slots_pres (st : MState) (op : Op) (hf : opFresh st op)
    (cid : String) (o : Slot) (ho : o ≠ Slot.unresolved)
    (h : aget cid st.slots = some o) :
    aget cid (applyOp st op).slots = some o := by
  cases op with
  | opConnect ws uid t url =>
    show aget cid (connect st ws uid t url).slots = some o
    rw [connect_slots]; exact h
  | opDisconnect uid => exact disconnect_slots_pres st uid cid o ho h
  | opSend uid c sendOk =>
    exact send_command_slots_pres st uid c sendOk hf cid o ho h
  | opRecv m =>
    show aget cid (match receive_response st m with
      | .ok s => s | .error _ => st).slots = some o
    cases he : receive_response st m with
    | ok s2 => exact receive_response_slots_pres st m s2 he cid o ho h
    | error e => exact h
  | opTimeout c => exact wait_for_timeout_slots_pres st c cid o ho h

/-- C1: for every command, the result slot transitions from unresolved to
resolved at most once.  Whichever of reply delivery (`receive_response`),
caller timeout (`wait_for_timeout`), or owner disconnection (`disconnect`)
acts first resolves it; every operation applied afterwards observes the slot
already done (or its table entry already removed) and leaves the resolution
untouched, so the caller observes exactly one terminal resolution. -/
theorem result_slot_resolved_at_most_once (st : MState) (ops : List Op)
    (hfresh : opsFresh st ops) (cid : String) (o : Slot)
    (ho : o ≠ Slot.unresolved) (h : aget cid st.slots = some o) :
    aget cid (applyOps st ops).slots = some o := by
  induction ops generalizing st with
  | nil => exact h
  | cons op rest ih =>
    exact ih (applyOp st op) hfresh.2
      (applyOp_slots_pres st op hfresh.1 cid o ho h)

/-- Witness for C1: a slot already resolved with a value survives a later
timeout, a later matching reply frame, and a later owner disconnect
unchanged. -/
theorem result_slot_resolved_at_most_once_witness :
    aget "abc"
      (applyOps
        { active_connections := [(7, 1)], pending_commands := [("abc", 7)],
          active_providers := [], provider_http_endpoints := [],
          slots := [("abc", Slot.value (JsonVal.num 5))], log := [] }
        [Op.opTimeout "abc",
         Op.opRecv (InMsg.parsed (JsonVal.obj
           [("command_id", JsonVal.str "abc"),
            ("result", JsonVal.num 9)])),
         Op.opDisconnect 7]).slots = some (Slot.value (JsonVal.num 5)) :=
  result_slot_resolved_at_most_once _ _
    (by simp [opsFresh, opFresh]) "abc" (Slot.value (JsonVal.num 5))
    (fun hh => Slot.noConfusion hh) rfl

/-! ## Keys-without-duplicates invariant -/

/-- The association list has pairwise-distinct keys (Python dict shape). -/
def keysNodup {κ ν : Type} (l : List (κ × ν)) : Prop :=
  (l.map Prod.fst).Nodup

theorem sublist_aerase {κ ν : Type} [DecidableEq κ] (k : κ)
    (l : List (κ × ν)) : (aerase k l).Sublist l := by
  induction l with
  | nil => simp [aerase]
  | cons p rest ih =>
    by_cases h : p.1 = k
    · rw [aerase, if_pos h]; exact ih.trans (List.sublist_cons_self p rest)
    · rw [aerase, if_neg h]; exact ih.cons₂ p

theorem not_mem_keys_aerase {κ ν : Type} [DecidableEq κ] (k : κ)
    (l : List (κ × ν)) : k ∉ (aerase k l).map Prod.fst := by
  induction l with
  | nil => simp [aerase]
  | cons p rest ih =>
    by_cases h : p.1 = k
    · rw [aerase, if_pos h]; exact ih
    · rw [aerase, if_neg h]
      intro hm
      rcases List.mem_cons.mp hm with he | hm2
      · exact h he.symm
      · exact ih hm2

theorem keysNodup_aerase {κ ν : Type} [DecidableEq κ] (k : κ)
    (l : List (κ × ν)) (h : keysNodup l) : keysNodup (aerase k l) :=
  ((sublist_aerase k l).map Prod.fst).nodup h

theorem keysNodup_aset {κ ν : Type} [DecidableEq κ] (k : κ) (v : ν)
    (l : List (κ × ν)) (h : keysNodup l) : keysNodup (aset k v l) := by
  simp only [aset, keysNodup, List.map_cons]
  exact List.nodup_cons.mpr ⟨not_mem_keys_aerase k l, keysNodup_aerase k l h⟩

/-! ## Register / supersede (C2) -/

theorem connect_supersede_parts (st : MState) (uid : Int) (old : Nat)
    (hold : aget uid st.active_connections = some old) :
    (connect_supersede st uid).active_connections =
      aerase uid st.active_connections ∧
    (connect_supersede st uid).log =
      st.log ++ [Event.close old 1001 "New connection established"] ∧
    (uid ∈ st.active_providers →
      (connect_supersede st uid).active_providers =
        st.active_providers.filter (fun u => u ≠ uid) ∧
      (connect_supersede st uid).provider_http_endpoints =
        aerase uid st.provider_http_endpoints) := by
  unfold connect_supersede
  rw [hold]
  by_cases h : uid ∈ st.active_providers <;> simp [h]

theorem connect_install_parts (st : MState) (ws : Nat) (uid : Int)
    (t : String) (url : Option String) :
    (connect_install st ws uid t url).active_connections =
      aset uid ws st.active_connections ∧
    (connect_install st ws uid t url).log = st.log ++ [Event.accept ws] := by
  unfold connect_install
  by_cases ht : t = "provider"
  · cases url with
    | none => simp [ht]
    | some u =>
      by_cases hu : startsWithStr u "http://" || startsWithStr u "https" <;>
        simp [ht, hu]
  · simp [ht]

/-- C2: a new Register for an identity that already has a registered
connection supersedes it: the old entry is removed (lookups under the
supersede state miss it, and when the identity was a provider it also leaves
the provider set and the endpoint map), the old transport is closed with
reason "New connection established" strictly before the new websocket is
accepted, the final lookup returns the newest transport, and the registry
keeps at most one connection per identity. -/
theorem register_supersedes_old_connection (st : MState) (ws : Nat)
    (uid : Int) (t : String) (url : Option String) (old : Nat)
    (hold : aget uid st.active_connections = some old) :
    aget uid (connect st ws uid t url).active_connections = some ws ∧
    (connect st ws uid t url).log =
      st.log ++ [Event.close old 1001 "New connection established",
        Event.accept ws] ∧
    aget uid (connect_supersede st uid).active_connections = none ∧
    (uid ∈ st.active_providers →
      uid ∉ (connect_supersede st uid).active_providers ∧
      aget uid (connect_supersede st uid).provider_http_endpoints = none) ∧
    (keysNodup st.active_connections →
      keysNodup (connect st ws uid t url).active_connections) := by
  obtain ⟨hs1, hs2, hs3⟩ := connect_supersede_parts st uid old hold
  obtain ⟨hi1, hi2⟩ :=
    connect_install_parts (connect_supersede st uid) ws uid t url
  refine ⟨?_, ?_, ?_, ?_, ?_⟩
  · rw [connect, hi1, aget_aset_eq]
  · rw [connect, hi2, hs2, List.append_assoc]; rfl
  · rw [hs1, aget_aerase_eq]
  · intro hp
    obtain ⟨hp1, hp2⟩ := hs3 hp
    constructor
    · rw [hp1]; simp
    · rw [hp2, aget_aerase_eq]
  · intro hnd
    rw [connect, hi1, hs1]
    exact keysNodup_aset uid ws _ (keysNodup_aerase uid _ hnd)

/-- Witness for C2: identity 7 holds transport 1; a second Register with
transport 2 closes transport 1 before accepting transport 2, and the final
lookup returns transport 2. -/
theorem register_supersedes_old_connection_witness :
    aget 7 (connect
      { active_connections := [(7, 1)], pending_commands := [],
        active_providers := [7], provider_http_endpoints := [(7, "http://a")],
        slots := [], log := [] } 2 7 "provider"
      (some "http://b")).active_connections = some 2 ∧
    (connect
      { active_connections := [(7, 1)], pending_commands := [],
        active_providers := [7], provider_http_endpoints := [(7, "http://a")],
        slots := [], log := [] } 2 7 "provider" (some "http://b")).log =
      [Event.close 1 1001 "New connection established", Event.accept 2] := by
  have h := register_supersedes_old_connection
    { active_connections := [(7, 1)], pending_commands := [],
      active_providers := [7], provider_http_endpoints := [(7, "http://a")],
      slots := [], log := [] } 2 7 "provider" (some "http://b") 1 rfl
  exact ⟨h.1, h.2.1⟩

/-! ## Disconnect (C3) -/

theorem cancelOne_fields (uid : Int) (c : String) (st : MState) :
    (cancelOne uid c st).active_connections = st.active_connections ∧
    (cancelOne uid c st).active_providers = st.active_providers ∧
    (cancelOne uid c st).provider_http_endpoints =
      st.provider_http_endpoints ∧
    (cancelOne uid c st).log = st.log ∧
    (cancelOne uid c st).pending_commands = aerase c st.pending_commands := by
  unfold cancelOne
  by_cases hf : (aget c st.pending_commands).isSome
  · simp only [hf, if_true]
    rcases aget c st.slots with _ | sl
    · simp
    · cases sl <;> simp
  · simp [hf]

theorem cancelOne_slots_other (uid : Int) (c : String) (st : MState)
    (c2 : String) (hne : c2 ≠ c) :
    aget c2 (cancelOne uid c st).slots = aget c2 st.slots := by
  unfold cancelOne
  by_cases hf : (aget c st.pending_commands).isSome
  · simp only [hf, if_true]
    rcases aget c st.slots with _ | sl
    · simp
    · cases sl <;> simp [aget_aset_ne _ _ hne]
  · simp [hf]

theorem cancelCmds_fields (uid : Int) (cmds : List String) (st : MState) :
    (cancelCmds uid cmds st).active_connections = st.active_connections ∧
    (cancelCmds uid cmds st).active_providers = st.active_providers ∧
    (cancelCmds uid cmds st).provider_http_endpoints =
      st.provider_http_endpoints ∧
    (cancelCmds uid cmds st).log = st.log := by
  induction cmds generalizing st with
  | nil => exact ⟨rfl, rfl, rfl, rfl⟩
  | cons c rest ih =>
    obtain ⟨h1, h2, h3, h4, _⟩ := cancelOne_fields uid c st
    obtain ⟨g1, g2, g3, g4⟩ := ih (cancelOne uid c st)
    rw [cancelCmds]
    exact ⟨g1.trans h1, g2.trans h2, g3.trans h3, g4.trans h4⟩

theorem cancelCmds_pending_mem (uid : Int) (cmds : List String) (st : MState)
    (e : String × Int) (he : e ∈ (cancelCmds uid cmds st).pending_commands) :
    e ∈ st.pending_commands := by
  induction cmds generalizing st with
  | nil => exact he
  | cons c rest ih =>
    rw [cancelCmds] at he
    have h2 := ih (cancelOne uid c st) he
    rw [(cancelOne_fields uid c st).2.2.2.2] at h2
    exact (sublist_aerase c st.pending_commands).mem h2

theorem cancelCmds_notkey (uid : Int) (cmds : List String) (st : MState)
    (c : String) (hc : c ∈ cmds) :
    c ∉ (cancelCmds uid cmds st).pending_commands.map Prod.fst := by
  induction cmds generalizing st with
  | nil => cases hc
  | cons c2 rest ih =>
    rw [cancelCmds]
    rcases List.mem_cons.mp hc with he | hm
    · subst he
      intro hmem
      obtain ⟨e, hein, hfst⟩ := List.mem_map.mp hmem
      have h2 := cancelCmds_pending_mem uid rest (cancelOne uid c st) e hein
      rw [(cancelOne_fields uid c st).2.2.2.2] at h2
      exact not_mem_keys_aerase c st.pending_commands
        (List.mem_map.mpr ⟨e, h2, hfst⟩)
    · exact ih (cancelOne uid c2 st) hm

theorem cancelCmds_untouched (uid : Int) (cmds : List String) (st : MState)
    (c : String) (hc : c ∉ cmds) :
    aget c (cancelCmds uid cmds st).pending_commands =
      aget c st.pending_commands ∧
    aget c (cancelCmds uid cmds st).slots = aget c st.slots := by
  induction cmds generalizing st with
  | nil => exact ⟨rfl, rfl⟩
  | cons c2 rest ih =>
    have hne : c ≠ c2 := fun e => hc (e ▸ List.mem_cons_self c2 rest)
    have hrest : c ∉ rest := fun h => hc (List.mem_cons_of_mem c2 h)
    obtain ⟨g1, g2⟩ := ih (cancelOne uid c2 st) hrest
    rw [cancelCmds]
    constructor
    · rw [g1, (cancelOne_fields uid c2 st).2.2.2.2, aget_aerase_ne _ hne]
    · rw [g2, cancelOne_slots_other uid c2 st c hne]

theorem cancelCmds_processed (uid : Int) (cmds : List String) (st : MState)
    (hnd : cmds.Nodup) (c : String) (hc : c ∈ cmds) (u : Int)
    (hp : aget c st.pending_commands = some u)
    (hs : aget c st.slots = some Slot.unresolved) :
    aget c (cancelCmds uid cmds st).pending_commands = none ∧
    aget c (cancelCmds uid cmds st).slots =
      some (Slot.errored (connLost uid)) := by
  induction cmds generalizing st with
  | nil => cases hc
  | cons c2 rest ih =>
    rw [cancelCmds]
    rcases List.mem_cons.mp hc with he | hm
    · subst he
      have hrest : c ∉ rest := (List.nodup_cons.mp hnd).1
      obtain ⟨g1, g2⟩ := cancelCmds_untouched uid rest (cancelOne uid c st) c hrest
      constructor
      · rw [g1, (cancelOne_fields uid c st).2.2.2.2, aget_aerase_eq]
      · rw [g2]
        simp [cancelOne, hp, hs, aget_aset_eq]
    · have hne : c ≠ c2 := by
        intro e
        exact (List.nodup_cons.mp hnd).1 (e ▸ hm)
      have hp2 : aget c (cancelOne uid c2 st).pending_commands = some u := by
        rw [(cancelOne_fields uid c2 st).2.2.2.2, aget_aerase_ne _ hne]
        exact hp
      have hs2 : aget c (cancelOne uid c2 st).slots =
          some Slot.unresolved := by
        rw [cancelOne_slots_other uid c2 st c hne]
        exact hs
      exact ih (cancelOne uid c2 st) (List.nodup_cons.mp hnd).2 hm hp2 hs2

theorem aget_mem_filter_map {ν : Type} [DecidableEq ν] (c : String)
    (uid : ν) (l : List (String × ν)) (h : aget c l = some uid) :
    c ∈ (l.filter (fun p => p.2 = uid)).map Prod.fst := by
  induction l with
  | nil => simp [aget] at h
  | cons p rest ih =>
    rw [aget] at h
    by_cases he : p.1 = c
    · rw [if_pos he] at h
      have hv : p.2 = uid := Option.some.inj h
      have hpf : p ∈ (p :: rest).filter (fun p => p.2 = uid) :=
        List.mem_filter.mpr ⟨List.mem_cons_self p rest, by simp [hv]⟩
      exact he ▸ List.mem_map.mpr ⟨p, hpf, rfl⟩
    · rw [if_neg he] at h
      have := ih h
      obtain ⟨e, hein, hfst⟩ := List.mem_map.mp this
      exact List.mem_map.mpr
        ⟨e, List.mem_filter.mpr
          ⟨List.mem_cons_of_mem p (List.mem_filter.mp hein).1,
           (List.mem_filter.mp hein).2⟩, hfst⟩

theorem notin_filter_map_of_other_owner {ν : Type} [DecidableEq ν]
    (c : String) (u uid : ν) (l : List (String × ν)) (hnd : keysNodup l)
    (h : aget c l = some u) (hne : u ≠ uid) :
    c ∉ (l.filter (fun p => p.2 = uid)).map Prod.fst := by
  induction l with
  | nil => simp [aget] at h
  | cons p rest ih =>
    have hnd2 : keysNodup rest := (List.nodup_cons.mp hnd).2
    have hpk : p.1 ∉ rest.map Prod.fst := (List.nodup_cons.mp hnd).1
    rw [aget] at h
    intro hmem
    obtain ⟨e, hein, hfst⟩ := List.mem_map.mp hmem
    obtain ⟨hein2, hval⟩ := List.mem_filter.mp hein
    rcases List.mem_cons.mp hein2 with he | hm
    · subst he
      by_cases hpc : e.1 = c
      · rw [if_pos hpc] at h
        exact hne (Option.some.inj h ▸ (by simpa using hval))
      · exact hpc hfst
    · by_cases hpc : p.1 = c
      · rw [if_pos hpc] at h
        exact hpk (hpc ▸ hfst ▸ List.mem_map.mpr ⟨e, hm, rfl⟩)
      · rw [if_neg hpc] at h
        exact ih hnd2 h (List.mem_map.mpr
          ⟨e, List.mem_filter.mpr ⟨hm, hval⟩, hfst⟩)

theorem filter_self_idem {α : Type} (p : α → Bool) (l : List α) :
    (l.filter p).filter p = l.filter p := by
  induction l with
  | nil => rfl
  | cons a rest ih =>
    by_cases h : p a <;> simp [List.filter_cons, h, ih]

theorem aerase_of_not_mem_keys {κ ν : Type} [DecidableEq κ] (k : κ)
    (l : List (κ × ν)) (h : k ∉ l.map Prod.fst) : aerase k l = l := by
  induction l with
  | nil => rfl
  | cons p rest ih =>
    have h1 : p.1 ≠ k := fun e => h (by simp [e])
    have h2 : k ∉ rest.map Prod.fst := fun hm => h (by simp [hm])
    rw [aerase, if_neg h1, ih h2]

theorem aerase_idem {κ ν : Type} [DecidableEq κ] (k : κ)
    (l : List (κ × ν)) : aerase k (aerase k l) = aerase k l :=
  aerase_of_not_mem_keys k (aerase k l) (not_mem_keys_aerase k l)

theorem mstate_ext (s t : MState)
    (h1 : s.active_connections = t.active_connections)
    (h2 : s.pending_commands = t.pending_commands)
    (h3 : s.active_providers = t.active_providers)
    (h4 : s.provider_http_endpoints = t.provider_http_endpoints)
    (h5 : s.slots = t.slots) (h6 : s.log = t.log) : s = t := by
  cases s; cases t; simp_all

theorem disconnect_eq (st : MState) (uid : Int) :
    disconnect st uid = cancelCmds uid
      ((st.pending_commands.filter (fun p => p.2 = uid)).map Prod.fst)
      { st with
        active_connections := aerase uid st.active_connections,
        provider_http_endpoints := aerase uid st.provider_http_endpoints,
        active_providers :=
          st.active_providers.filter (fun u => u ≠ uid) } := rfl

theorem keysNodup_filter {κ ν : Type} (pred : κ × ν → Bool)
    (l : List (κ × ν)) (h : keysNodup l) :
    ((l.filter pred).map Prod.fst).Nodup :=
  ((List.filter_sublist l (p := pred)).map Prod.fst).nodup h

/-- Every entry surviving disconnect has another owner. -/
theorem disconnect_no_owned_left (st : MState) (uid : Int)
    (e : String × Int) (he : e ∈ (disconnect st uid).pending_commands) :
    e.2 ≠ uid := by
  intro hval
  rw [disconnect_eq] at he
  have hst1 := cancelCmds_pending_mem uid _ _ e he
  have hcm : e.1 ∈ ((st.pending_commands.filter
      (fun p => p.2 = uid)).map Prod.fst) :=
    List.mem_map.mpr ⟨e, List.mem_filter.mpr ⟨hst1, by simp [hval]⟩, rfl⟩
  have hkey := cancelCmds_notkey uid _
    ({ st with
       active_connections := aerase uid st.active_connections,
       provider_http_endpoints := aerase uid st.provider_http_endpoints,
       active_providers :=
         st.active_providers.filter (fun u => u ≠ uid) } : MState)
    e.1 hcm
  rw [← disconnect_eq] at hkey
  exact hkey (List.mem_map.mpr ⟨e, he, rfl⟩)

theorem disconnect_idem (st : MState) (uid : Int) :
    disconnect (disconnect st uid) uid = disconnect st uid := by
  have hfields := cancelCmds_fields uid
    ((st.pending_commands.filter (fun p => p.2 = uid)).map Prod.fst)
    ({ st with
       active_connections := aerase uid st.active_connections,
       provider_http_endpoints := aerase uid st.provider_http_endpoints,
       active_providers :=
         st.active_providers.filter (fun u => u ≠ uid) } : MState)
  have hact : (disconnect st uid).active_connections =
      aerase uid st.active_connections := by
    rw [disconnect_eq]; exact hfields.1
  have hprov : (disconnect st uid).active_providers =
      st.active_providers.filter (fun u => u ≠ uid) := by
    rw [disconnect_eq]; exact hfields.2.1
  have hend : (disconnect st uid).provider_http_endpoints =
      aerase uid st.provider_http_endpoints := by
    rw [disconnect_eq]; exact hfields.2.2.1
  have hfilter : (disconnect st uid).pending_commands.filter
      (fun p => p.2 = uid) = [] := by
    rw [List.filter_eq_nil_iff]
    intro e he
    simpa using disconnect_no_owned_left st uid e he
  rw [disconnect_eq (disconnect st uid) uid, hfilter]
  show cancelCmds uid [] _ = disconnect st uid
  rw [cancelCmds]
  exact mstate_ext _ _
    (by rw [hact]; exact aerase_idem uid st.active_connections)
    rfl
    (by rw [hprov]; exact filter_self_idem _ st.active_providers)
    (by rw [hend]; exact aerase_idem uid st.provider_http_endpoints)
    rfl rfl

theorem aget_eq_none_of_not_mem_keys {κ ν : Type} [DecidableEq κ] (k : κ)
    (l : List (κ × ν)) (h : k ∉ l.map Prod.fst) : aget k l = none := by
  induction l with
  | nil => rfl
  | cons p rest ih =>
    have h1 : p.1 ≠ k := fun e => h (by simp [e])
    rw [aget, if_neg h1]
    exact ih (fun hm => h (by simp [hm]))

/-- C3: Unregister semantics of `disconnect`.  Every pending command whose
owner identity equals the disconnected user is removed from the table and,
when its slot was still unresolved, resolved with the connection-lost
ConnectionError; every pending command owned by any other identity keeps its
table entry and its slot untouched; and the operation is idempotent, so a
repeated call (including one made when nothing is registered any more) is a
safe no-op. -/
theorem disconnect_cancels_owned_commands (st : MState) (uid : Int)
    (hnd : keysNodup st.pending_commands) :
    (∀ c, aget c st.pending_commands = some uid →
      aget c (disconnect st uid).pending_commands = none) ∧
    (∀ c, aget c st.pending_commands = some uid →
      aget c st.slots = some Slot.unresolved →
      aget c (disconnect st uid).slots =
        some (Slot.errored (connLost uid))) ∧
    (∀ c u, u ≠ uid → aget c st.pending_commands = some u →
      aget c (disconnect st uid).pending_commands = some u ∧
      aget c (disconnect st uid).slots = aget c st.slots) ∧
    disconnect (disconnect st uid) uid = disconnect st uid := by
  have hcnd : ((st.pending_commands.filter
      (fun p => p.2 = uid)).map Prod.fst).Nodup :=
    keysNodup_filter _ _ hnd
  refine ⟨?_, ?_, ?_, disconnect_idem st uid⟩
  · intro c hp
    rw [disconnect_eq]
    exact aget_eq_none_of_not_mem_keys c _
      (cancelCmds_notkey uid _
        ({ st with
           active_connections := aerase uid st.active_connections,
           provider_http_endpoints := aerase uid st.provider_http_endpoints,
           active_providers :=
             st.active_providers.filter (fun u => u ≠ uid) } : MState)
        c (aget_mem_filter_map c uid _ hp))
  · intro c hp hs
    rw [disconnect_eq]
    exact (cancelCmds_processed uid _
      ({ st with
         active_connections := aerase uid st.active_connections,
         provider_http_endpoints := aerase uid st.provider_http_endpoints,
         active_providers :=
           st.active_providers.filter (fun u => u ≠ uid) } : MState)
      hcnd c (aget_mem_filter_map c uid _ hp) uid hp hs).2
  · intro c u hne hp
    have hnotin := notin_filter_map_of_other_owner c u uid _ hnd hp hne
    rw [disconnect_eq]
    obtain ⟨g1, g2⟩ := cancelCmds_untouched uid _
      ({ st with
         active_connections := aerase uid st.active_connections,
         provider_http_endpoints := aerase uid st.provider_http_endpoints,
         active_providers :=
           st.active_providers.filter (fun u => u ≠ uid) } : MState)
      c hnotin
    exact ⟨g1.trans hp, g2⟩

/-- Witness for C3: identity 7 owns command "a", identity 8 owns command
"b"; disconnecting 7 removes and cancels "a" with the connection-lost error,
leaves "b" pending and unresolved, and a second disconnect changes
nothing. -/
theorem disconnect_cancels_owned_commands_witness :
    aget "a" (disconnect
      { active_connections := [(7, 1), (8, 2)],
        pending_commands := [("a", 7), ("b", 8)], active_providers := [],
        provider_http_endpoints := [],
        slots := [("a", Slot.unresolved), ("b", Slot.unresolved)],
        log := [] } 7).pending_commands = none ∧
    aget "a" (disconnect
      { active_connections := [(7, 1), (8, 2)],
        pending_commands := [("a", 7), ("b", 8)], active_providers := [],
        provider_http_endpoints := [],
        slots := [("a", Slot.unresolved), ("b", Slot.unresolved)],
        log := [] } 7).slots = some (Slot.errored (connLost 7)) ∧
    aget "b" (disconnect
      { active_connections := [(7, 1), (8, 2)],
        pending_commands := [("a", 7), ("b", 8)], active_providers := [],
        provider_http_endpoints := [],
        slots := [("a", Slot.unresolved), ("b", Slot.unresolved)],
        log := [] } 7).pending_commands = some 8 := by
  have h := disconnect_cancels_owned_commands
    { active_connections := [(7, 1), (8, 2)],
      pending_commands := [("a", 7), ("b", 8)], active_providers := [],
      provider_http_endpoints := [],
      slots := [("a", Slot.unresolved), ("b", Slot.unresolved)],
      log := [] } 7 (by simp [keysNodup])
  exact ⟨h.1 "a" rfl, h.2.1 "a" rfl rfl, (h.2.2.1 "b" 8 (by decide) rfl).1⟩

/-! ## Caller timeout (C4) -/

theorem wait_for_timeout_pending (st : MState) (cid : String) :
    (wait_for_timeout st cid).pending_commands = st.pending_commands := by
  unfold wait_for_timeout
  rcases aget cid st.slots with _ | sl
  · rfl
  · cases sl <;> rfl

/-- C4 counterexample: after `send_command` allocates command "abc" for
user 7 and the caller wait then times out, the pending table STILL holds the
entry for "abc" — nothing on the timeout path removes it, contradicting the
claim that the table no longer holds the command id afterward. -/
theorem timeout_leaves_table_entry_counterexample :
    aget "abc" (wait_for_timeout
      (send_command (connect initState 1 7 "provider" none) 7 "abc" true).1
      "abc").pending_commands = some 7 := rfl

/-- C4 (amended): when the `SendCommand` wait times out with no reply, the
caller gets the Timeout error and the future is cancelled by
`asyncio.wait_for`, but the correlation table entry is NOT removed at
timeout time: it remains, now holding a done future, until a late reply for
that id arrives; such a late reply pops the entry, finds the future already
done, and is discarded harmlessly, resolving nothing. -/
theorem timeout_cancels_future_but_leaves_entry (st : MState) (cid : String)
    (uid : Int) (hp : aget cid st.pending_commands = some uid)
    (hs : aget cid st.slots = some Slot.unresolved) (hcid : cid ≠ "") :
    aget cid (wait_for_timeout st cid).slots = some Slot.cancelled ∧
    aget cid (wait_for_timeout st cid).pending_commands = some uid ∧
    (∀ res : JsonVal, ∃ st2,
      receive_response (wait_for_timeout st cid)
        (InMsg.parsed (JsonVal.obj [("command_id", JsonVal.str cid),
          ("result", res)])) = .ok st2 ∧
      aget cid st2.pending_commands = none ∧
      aget cid st2.slots = some Slot.cancelled) := by
  have hslot : aget cid (wait_for_timeout st cid).slots =
      some Slot.cancelled := by
    unfold wait_for_timeout
    rw [hs]
    exact aget_aset_eq cid _ _
  have hpend : aget cid (wait_for_timeout st cid).pending_commands =
      some uid := by
    rw [wait_for_timeout_pending]; exact hp
  refine ⟨hslot, hpend, ?_⟩
  intro res
  have hparse : rr_parse (InMsg.parsed (JsonVal.obj
      [("command_id", JsonVal.str cid), ("result", res)])) =
      some (JsonVal.str cid, res) := by
    simp [rr_parse, aget, isPongField, truthy, hcid]
  refine ⟨{ wait_for_timeout st cid with
    pending_commands :=
      aerase cid (wait_for_timeout st cid).pending_commands }, ?_, ?_, ?_⟩
  · unfold receive_response
    rw [hparse]
    have hdel : deliver (wait_for_timeout st cid) cid res =
        { wait_for_timeout st cid with
          pending_commands :=
            aerase cid (wait_for_timeout st cid).pending_commands } := by
      unfold deliver
      rw [hpend]
      dsimp only
      rw [hslot]
    simp [jsonHashable, hdel]
  · exact aget_aerase_eq cid _
  · exact hslot

/-- Witness for the amended C4: the concrete timed-out command "abc" of
user 7 has a cancelled future, a surviving table entry, and a late reply is
discarded. -/
theorem timeout_cancels_future_but_leaves_entry_witness :
    aget "abc" (wait_for_timeout
      (send_command (connect initState 1 7 "provider" none) 7 "abc" true).1
      "abc").slots = some Slot.cancelled ∧
    aget "abc" (wait_for_timeout
      (send_command (connect initState 1 7 "provider" none) 7 "abc" true).1
      "abc").pending_commands = some 7 := by
  have h := timeout_cancels_future_but_leaves_entry
    (send_command (connect initState 1 7 "provider" none) 7 "abc" true).1
    "abc" 7 rfl rfl (by decide)
  exact ⟨h.1, h.2.1⟩

/-! ## Inbound frame safety (C5) -/

/-- C5 counterexample: a valid-JSON frame whose command id is a (truthy)
JSON array — a command id certainly absent from the (empty) pending table —
makes `receive_response` raise TypeError, because the dict pop on line 253
sits outside the try/except and a Python list is unhashable. -/
theorem unknown_id_frame_raises_counterexample :
    receive_response initState
      (InMsg.parsed (JsonVal.obj
        [("command_id", JsonVal.arr [JsonVal.num 1])])) =
      .error (PyError.typeError "unhashable type") := rfl

/-- C5 (amended): `receive_response` discards without raising every frame
the parse stage rejects (non-JSON, non-object, pong, missing or falsy
command id); every frame whose command id is hashable returns without
raising; a string-id frame is exactly a delivery, and a delivery for an id
absent from the pending table is a no-op, one for an id with an
already-resolved slot only removes the table entry and changes no slot, and
no delivery ever touches another command.  (A truthy JSON-array or
JSON-object command id, however, raises TypeError out of the method, as the
counterexample shows.) -/
theorem inbound_frame_safety (st : MState) (msg : InMsg) (c : String)
    (res : JsonVal) :
    (rr_parse msg = none → receive_response st msg = .ok st) ∧
    ((∀ cid res2, rr_parse msg = some (cid, res2) →
        jsonHashable cid = true) →
      ∃ st2, receive_response st msg = .ok st2) ∧
    (rr_parse msg = some (JsonVal.str c, res) →
      receive_response st msg = .ok (deliver st c res)) ∧
    (aget c st.pending_commands = none → deliver st c res = st) ∧
    (∀ u o, aget c st.pending_commands = some u →
      aget c st.slots = some o → o ≠ Slot.unresolved →
      (deliver st c res).slots = st.slots ∧
      aget c (deliver st c res).pending_commands = none) ∧
    (∀ c2, c2 ≠ c →
      aget c2 (deliver st c res).pending_commands =
        aget c2 st.pending_commands ∧
      aget c2 (deliver st c res).slots = aget c2 st.slots) := by
  refine ⟨?_, ?_, ?_, ?_, ?_, ?_⟩
  · intro hn
    unfold receive_response
    rw [hn]
  · intro hh
    unfold receive_response
    cases hpar : rr_parse msg with
    | none => exact ⟨st, rfl⟩
    | some pr =>
      obtain ⟨cid, res2⟩ := pr
      have hcid := hh cid res2 hpar
      dsimp only
      rw [if_pos hcid]
      cases cid with
      | str s2 => exact ⟨deliver st s2 res2, rfl⟩
      | null => exact ⟨st, rfl⟩
      | bool b => exact ⟨st, rfl⟩
      | num n => exact ⟨st, rfl⟩
      | arr xs => simp [jsonHashable] at hcid
      | obj fs => simp [jsonHashable] at hcid
  · intro hp
    unfold receive_response
    rw [hp]
    rfl
  · intro hp
    unfold deliver
    rw [hp]
  · intro u o hp hsl ho
    unfold deliver
    rw [hp]
    dsimp only
    rw [hsl]
    cases o with
    | unresolved => exact absurd rfl ho
    | value p => exact ⟨rfl, aget_aerase_eq c _⟩
    | errored e => exact ⟨rfl, aget_aerase_eq c _⟩
    | cancelled => exact ⟨rfl, aget_aerase_eq c _⟩
  · intro c2 hne
    unfold deliver
    rcases aget c st.pending_commands with _ | u
    · exact ⟨rfl, rfl⟩
    · dsimp only
      rcases aget c st.slots with _ | sl
      · exact ⟨aget_aerase_ne _ hne, rfl⟩
      · cases sl with
        | unresolved =>
          exact ⟨aget_aerase_ne _ hne, aget_aset_ne _ _ hne⟩
        | value p => exact ⟨aget_aerase_ne _ hne, rfl⟩
        | errored e => exact ⟨aget_aerase_ne _ hne, rfl⟩
        | cancelled => exact ⟨aget_aerase_ne _ hne, rfl⟩

/-- Witness for the amended C5: on a state holding command "abc" with an
already-cancelled future, a reply frame for unknown id "zzz" is a no-op and
a delivery for "abc" removes only the entry, leaving all slots as they
were. -/
theorem inbound_frame_safety_witness :
    receive_response
      { active_connections := [(7, 1)], pending_commands := [("abc", 7)],
        active_providers := [], provider_http_endpoints := [],
        slots := [("abc", Slot.cancelled)], log := [] }
      (InMsg.parsed (JsonVal.obj
        [("command_id", JsonVal.str "zzz"),
         ("result", JsonVal.num 1)])) = .ok
      { active_connections := [(7, 1)], pending_commands := [("abc", 7)],
        active_providers := [], provider_http_endpoints := [],
        slots := [("abc", Slot.cancelled)], log := [] } ∧
    (deliver
      { active_connections := [(7, 1)], pending_commands := [("abc", 7)],
        active_providers := [], provider_http_endpoints := [],
        slots := [("abc", Slot.cancelled)], log := [] } "abc"
      (JsonVal.num 2)).slots = [("abc", Slot.cancelled)] := by
  have h1 := inbound_frame_safety
    { active_connections := [(7, 1)], pending_commands := [("abc", 7)],
      active_providers := [], provider_http_endpoints := [],
      slots := [("abc", Slot.cancelled)], log := [] }
    (InMsg.parsed (JsonVal.obj
      [("command_id", JsonVal.str "zzz"), ("result", JsonVal.num 1)]))
    "zzz" (JsonVal.num 1)
  have h2 := inbound_frame_safety
    { active_connections := [(7, 1)], pending_commands := [("abc", 7)],
      active_providers := [], provider_http_endpoints := [],
      slots := [("abc", Slot.cancelled)], log := [] }
    (InMsg.malformed "x") "abc" (JsonVal.num 2)
  constructor
  · have := h1.2.2.1 (by
      simp [rr_parse, aget, isPongField, truthy])
    rw [this]
    have hdel := h1.2.2.2.1 (by simp [aget])
    rw [hdel]
  · exact (h2.2.2.2.2.1 7 Slot.cancelled rfl rfl
      (fun hh => Slot.noConfusion hh)).1

/-! ## Provider selection (C6) -/

theorem getD_mem_of_ne_nil {α : Type} (l : List α) (k : Nat) (d : α)
    (h : ¬l.isEmpty) : l.getD (k % l.length) d ∈ l := by
  have hpos : 0 < l.length := by
    cases l with
    | nil => simp at h
    | cons a rest => simp
  have hlt : k % l.length < l.length := Nat.mod_lt _ hpos
  rw [List.getD_eq_getElem?_getD, List.getElem?_eq_getElem hlt]
  exact List.getElem_mem hlt

/-- C6: `get_random_provider_info` returns none whenever no registered
provider has a recorded HTTP endpoint (including when providers exist but
none has one), and whenever it returns a pair, the identity is a registered
provider and the endpoint is its recorded, non-empty endpoint — it never
falls back to an endpoint-less provider. -/
theorem provider_info_requires_endpoint (st : MState) (k : Nat) :
    ((∀ p ∈ st.active_providers,
        aget p st.provider_http_endpoints = none) →
      get_random_provider_info k st = none) ∧
    (∀ pid ep, get_random_provider_info k st = some (pid, ep) →
      pid ∈ st.active_providers ∧
      aget pid st.provider_http_endpoints = some ep ∧ ep ≠ "") := by
  constructor
  · intro hall
    unfold get_random_provider_info
    by_cases hp : st.active_providers.isEmpty
    · rw [if_pos hp]
    · rw [if_neg hp]
      have he : (st.active_providers.filter
          (fun pid => (aget pid st.provider_http_endpoints).isSome)).isEmpty
          = true := by
        rw [List.isEmpty_iff, List.filter_eq_nil_iff]
        intro a ha
        simp [hall a ha]
      rw [if_pos he]
  · intro pid ep h
    unfold get_random_provider_info at h
    by_cases hp : st.active_providers.isEmpty
    · rw [if_pos hp] at h; cases h
    · rw [if_neg hp] at h
      dsimp only at h
      set elig := st.active_providers.filter
        (fun pid => (aget pid st.provider_http_endpoints).isSome) with helig
      by_cases he : elig.isEmpty
      · rw [if_pos he] at h; cases h
      · rw [if_neg he] at h
        have hmem : elig.getD (k % elig.length) 0 ∈ elig :=
          getD_mem_of_ne_nil elig k 0 (by simp [he])
        obtain ⟨hmem2, hsome⟩ := List.mem_filter.mp (helig ▸ hmem)
        rcases hend : aget (elig.getD (k % elig.length) 0)
            st.provider_http_endpoints with _ | ep2
        · rw [hend] at h; cases h
        · rw [hend] at h
          dsimp only at h
          by_cases hemp : ep2 = ""
          · rw [if_pos hemp] at h; cases h
          · rw [if_neg hemp] at h
            have he2 := Option.some.inj h
            have hpid : pid = elig.getD (k % elig.length) 0 :=
              (congrArg Prod.fst he2).symm
            have hep : ep = ep2 := (congrArg Prod.snd he2).symm
            subst hpid
            subst hep
            exact ⟨hmem2, hend, hemp⟩

/-- Witness for C6: with provider 7 registered but no endpoint recorded the
picker returns none; with an endpoint recorded it returns provider 7 with
that endpoint. -/
theorem provider_info_requires_endpoint_witness :
    get_random_provider_info 0
      { active_connections := [(7, 1)], pending_commands := [],
        active_providers := [7], provider_http_endpoints := [],
        slots := [], log := [] } = none ∧
    ((7 : Int) ∈
      ({ active_connections := [(7, 1)], pending_commands := [],
         active_providers := [7],
         provider_http_endpoints := [(7, "http://x")],
         slots := [], log := [] } : MState).active_providers ∧
      aget 7
        ({ active_connections := [(7, 1)], pending_commands := [],
           active_providers := [7],
           provider_http_endpoints := [(7, "http://x")],
           slots := [], log := [] } : MState).provider_http_endpoints =
        some "http://x" ∧ "http://x" ≠ "") := by
  constructor
  · exact (provider_info_requires_endpoint
      { active_connections := [(7, 1)], pending_commands := [],
        active_providers := [7], provider_http_endpoints := [],
        slots := [], log := [] } 0).1 (by intro p hp; rfl)
  · exact (provider_info_requires_endpoint
      { active_connections := [(7, 1)], pending_commands := [],
        active_providers := [7],
        provider_http_endpoints := [(7, "http://x")],
        slots := [], log := [] } 0).2 7 "http://x" rfl

/-! ## Endpoint validation at connect (C7) -/

/-- Modelled from the spec: "a well-formed absolute HTTP(S) URL" — an
absolute URL whose scheme is http or https, written with the :// separator
and followed by a nonempty remainder (the host part).  The source has no
such validator; this definition captures the weakest reasonable reading of
the words of the spec, for comparison with the `startswith` check the code
performs. -/
def isAbsoluteHttpUrl (s : String) : Bool :=
  (startsWithStr s "http://" && decide (7 < s.toList.length)) ||
  (startsWithStr s "https://" && decide (8 < s.toList.length))

/-- C7 counterexample: the string "httpsnot-a-url" is not a well-formed
absolute HTTP(S) URL, yet connect stores it as the endpoint of provider 7,
because the code only checks `startswith("http://") or
startswith("https")`. -/
theorem endpoint_validation_counterexample :
    aget 7 (connect initState 1 7 "provider"
      (some "httpsnot-a-url")).provider_http_endpoints =
      some "httpsnot-a-url" ∧
    isAbsoluteHttpUrl "httpsnot-a-url" = false := by
  constructor
  · rfl
  · decide

theorem connect_supersede_endpoints_none (st : MState) (uid : Int)
    (hfresh : aget uid st.provider_http_endpoints = none) :
    aget uid (connect_supersede st uid).provider_http_endpoints = none := by
  unfold connect_supersede
  rcases aget uid st.active_connections with _ | oldWs
  · exact hfresh
  · by_cases h : uid ∈ st.active_providers
    · simp only [h, if_true]
      exact aget_aerase_eq uid _
    · simp only [h, if_false]
      exact hfresh

/-- C7 (amended): at provider connect time the endpoint string is stored if
and only if it passes the bare prefix check `startswith("http://") or
startswith("https")` — not a well-formedness test; any other string leaves
the provider without a recorded endpoint (the rejection is only logged), and
a stored endpoint is the supplied string with trailing slashes removed. -/
theorem endpoint_stored_iff_prefix_accepted (st : MState) (ws : Nat)
    (uid : Int) (u : String)
    (hfresh : aget uid st.provider_http_endpoints = none) :
    aget uid (connect st ws uid "provider"
        (some u)).provider_http_endpoints =
      (if startsWithStr u "http://" || startsWithStr u "https"
       then some (rstripSlash u) else none) := by
  have hs := connect_supersede_endpoints_none st uid hfresh
  rw [connect]
  unfold connect_install
  by_cases hu : startsWithStr u "http://" || startsWithStr u "https"
  · simp only [hu, if_true, reduceIte]
    exact aget_aset_eq uid _ _
  · simp only [hu, if_false, Bool.false_eq_true, reduceIte]
    exact hs

/-- Witness for the amended C7: "http://h/" is stored (with the trailing
slash stripped) while "ftp://h" is rejected and nothing is stored. -/
theorem endpoint_stored_iff_prefix_accepted_witness :
    aget 7 (connect initState 1 7 "provider"
        (some "http://h/")).provider_http_endpoints = some "http://h" ∧
    aget 7 (connect initState 2 7 "provider"
        (some "ftp://h")).provider_http_endpoints = none := by
  constructor
  · have h := endpoint_stored_iff_prefix_accepted initState 1 7 "http://h/" rfl
    rw [h]
    rfl
  · have h := endpoint_stored_iff_prefix_accepted initState 2 7 "ftp://h" rfl
    rw [h]
    rfl

/-! ## Reply payload shape (C8) -/

/-- C8 counterexample: a reply shaped with a top-level "error" field and no
"result" field resolves the waiting slot with JSON null — the error detail
is NOT delivered to the caller, because `receive_response` forwards only
`data.get("result")`. -/
theorem error_shape_dropped_counterexample :
    receive_response
      { active_connections := [(7, 1)], pending_commands := [("abc", 7)],
        active_providers := [], provider_http_endpoints := [],
        slots := [("abc", Slot.unresolved)], log := [] }
      (InMsg.parsed (JsonVal.obj
        [("command_id", JsonVal.str "abc"),
         ("error", JsonVal.str "boom")])) = .ok
      { active_connections := [(7, 1)], pending_commands := [],
        active_providers := [], provider_http_endpoints := [],
        slots := [("abc", Slot.value JsonVal.null)], log := [] } := rfl

/-- C8 (amended): for every inbound reply frame with a pending command id,
the waiting slot is resolved with exactly the frame "result" field (JSON
null when absent), with no special-casing of its shape: an error payload
embedded in "result" reaches the caller verbatim for inspection, but a
top-level "error" field outside "result" is dropped and the slot resolves
with null. -/
theorem reply_payload_delivered_verbatim (st : MState)
    (fields : List (String × JsonVal)) (c : String) (uid : Int)
    (hpong : isPongField (aget "type" fields) = false)
    (hcid : aget "command_id" fields = some (JsonVal.str c))
    (hc : c ≠ "")
    (hp : aget c st.pending_commands = some uid)
    (hs : aget c st.slots = some Slot.unresolved) :
    ∃ st2,
      receive_response st (InMsg.parsed (JsonVal.obj fields)) = .ok st2 ∧
      aget c st2.slots =
        some (Slot.value ((aget "result" fields).getD JsonVal.null)) ∧
      aget c st2.pending_commands = none := by
  have hparse : rr_parse (InMsg.parsed (JsonVal.obj fields)) =
      some (JsonVal.str c, (aget "result" fields).getD JsonVal.null) := by
    unfold rr_parse
    dsimp only
    rw [hpong]
    simp only [Bool.false_eq_true, if_false]
    rw [hcid]
    simp [truthy, hc]
  refine ⟨deliver st c ((aget "result" fields).getD JsonVal.null), ?_, ?_, ?_⟩
  · unfold receive_response
    rw [hparse]
    rfl
  · unfold deliver
    rw [hp]
    dsimp only
    rw [hs]
    exact aget_aset_eq c _ _
  · unfold deliver
    rw [hp]
    dsimp only
    rw [hs]
    exact aget_aerase_eq c _

/-- Witness for the amended C8: an error payload embedded in the "result"
field is delivered verbatim to the waiting slot of command "abc". -/
theorem reply_payload_delivered_verbatim_witness :
    ∃ st2,
      receive_response
        { active_connections := [(7, 1)], pending_commands := [("abc", 7)],
          active_providers := [], provider_http_endpoints := [],
          slots := [("abc", Slot.unresolved)], log := [] }
        (InMsg.parsed (JsonVal.obj
          [("command_id", JsonVal.str "abc"),
           ("result", JsonVal.obj [("error", JsonVal.str "boom")])])) =
        .ok st2 ∧
      aget "abc" st2.slots = some (Slot.value
        ((aget "result"
          [("command_id", JsonVal.str "abc"),
           ("result", JsonVal.obj
             [("error", JsonVal.str "boom")])]).getD JsonVal.null)) ∧
      aget "abc" st2.pending_commands = none :=
  reply_payload_delivered_verbatim
    { active_connections := [(7, 1)], pending_commands := [("abc", 7)],
      active_providers := [], provider_http_endpoints := [],
      slots := [("abc", Slot.unresolved)], log := [] }
    [("command_id", JsonVal.str "abc"),
     ("result", JsonVal.obj [("error", JsonVal.str "boom")])]
    "abc" 7 rfl rfl (by decide) rfl rfl

/-! ## Heartbeat (C9) -/

/-- C9 counterexample: with identity 7 registered on transport 1 and one
pending command, a heartbeat iteration whose ping write hits
WebSocketDisconnect terminates the task but leaves the manager state
exactly as it was: the registry entry survives and no pending command is
cancelled — the heartbeat does not trigger Unregister. -/
theorem heartbeat_failure_no_unregister_counterexample :
    heartbeat_iter
      { active_connections := [(7, 1)], pending_commands := [("abc", 7)],
        active_providers := [], provider_http_endpoints := [],
        slots := [("abc", Slot.unresolved)], log := [] } 7 1
      SendOutcome.wsDisconnect =
      ({ active_connections := [(7, 1)], pending_commands := [("abc", 7)],
         active_providers := [], provider_http_endpoints := [],
         slots := [("abc", Slot.unresolved)], log := [] },
       HBResult.stop) := rfl

/-- C9 (amended): a failed liveness-probe write or detected transport
closure makes the heartbeat task terminate WITHOUT calling Unregister and
without touching the manager state; a superseded or missing registration
likewise stops the task quietly, and a successful ping continues the loop.
The actual unregistration is performed by the connection handler in main.py,
whose finally block calls disconnect, removing the registry entry and
cancelling every pending command of the identity. -/
theorem heartbeat_terminates_cleanup_by_handler (st : MState) (uid : Int)
    (ws : Nat) (outcome : SendOutcome) :
    (aget uid st.active_connections ≠ some ws →
      heartbeat_iter st uid ws outcome = (st, HBResult.stop)) ∧
    (aget uid st.active_connections = some ws →
      outcome ≠ SendOutcome.ok →
      heartbeat_iter st uid ws outcome = (st, HBResult.stop)) ∧
    (aget uid st.active_connections = some ws →
      heartbeat_iter st uid ws SendOutcome.ok = (st, HBResult.cont)) ∧
    aget uid (ws_endpoint_cleanup st uid).active_connections = none ∧
    (∀ c, aget c st.pending_commands = some uid →
      aget c (ws_endpoint_cleanup st uid).pending_commands = none) := by
  refine ⟨?_, ?_, ?_, ?_, ?_⟩
  · intro hne
    unfold heartbeat_iter
    rw [if_pos (by simpa using hne)]
  · intro heq hno
    unfold heartbeat_iter
    rw [if_neg (by simp [heq])]
    cases outcome with
    | ok => exact absurd rfl hno
    | wsDisconnect => rfl
    | sendErr => rfl
  · intro heq
    unfold heartbeat_iter
    rw [if_neg (by simp [heq])]
  · show aget uid (disconnect st uid).active_connections = none
    rw [disconnect_eq]
    rw [(cancelCmds_fields uid _ _).1]
    exact aget_aerase_eq uid _
  · intro c hp
    show aget c (disconnect st uid).pending_commands = none
    rw [disconnect_eq]
    exact aget_eq_none_of_not_mem_keys c _
      (cancelCmds_notkey uid _
        ({ st with
           active_connections := aerase uid st.active_connections,
           provider_http_endpoints := aerase uid st.provider_http_endpoints,
           active_providers :=
             st.active_providers.filter (fun u => u ≠ uid) } : MState)
        c (aget_mem_filter_map c uid _ hp))

/-- Witness for the amended C9: the concrete failed-ping iteration stops
with the state untouched, and the handler cleanup removes identity 7 and its
pending command. -/
theorem heartbeat_terminates_cleanup_by_handler_witness :
    heartbeat_iter
      { active_connections := [(7, 1)], pending_commands := [("abc", 7)],
        active_providers := [], provider_http_endpoints := [],
        slots := [("abc", Slot.unresolved)], log := [] } 7 1
      SendOutcome.sendErr =
      ({ active_connections := [(7, 1)], pending_commands := [("abc", 7)],
         active_providers := [], provider_http_endpoints := [],
         slots := [("abc", Slot.unresolved)], log := [] },
       HBResult.stop) ∧
    aget 7 (ws_endpoint_cleanup
      { active_connections := [(7, 1)], pending_commands := [("abc", 7)],
        active_providers := [], provider_http_endpoints := [],
        slots := [("abc", Slot.unresolved)], log := [] }
      7).active_connections = none ∧
    aget "abc" (ws_endpoint_cleanup
      { active_connections := [(7, 1)], pending_commands := [("abc", 7)],
        active_providers := [], provider_http_endpoints := [],
        slots := [("abc", Slot.unresolved)], log := [] }
      7).pending_commands = none := by
  have h := heartbeat_terminates_cleanup_by_handler
    { active_connections := [(7, 1)], pending_commands := [("abc", 7)],
      active_providers := [], provider_http_endpoints := [],
      slots := [("abc", Slot.unresolved)], log := [] } 7 1
    SendOutcome.sendErr
  exact ⟨h.2.1 rfl (fun hh => SendOutcome.noConfusion hh), h.2.2.2.1,
    h.2.2.2.2 "abc" rfl⟩

/-! ## Broadcast (C10) -/

theorem aget_map_pair {κ ν : Type} [DecidableEq κ] (f : κ → ν)
    (ks : List κ) (k : κ) (hk : k ∈ ks) :
    aget k (ks.map (fun x => (x, f x))) = some (f k) := by
  induction ks with
  | nil => cases hk
  | cons a rest ih =>
    rcases List.mem_cons.mp hk with he | hm
    · subst he; simp [aget]
    · by_cases ha : a = k
      · subst ha; simp [aget]
      · simp [aget, ha, ih hm]

/-- C10: `broadcast_command` uses the fixed 30-time-unit per-recipient wait
(a literal in the source, not a caller-supplied parameter), returns exactly
one map entry for every identity in the snapshot of connected identities
taken at call time, and each recipient timeout, disconnection or error is
recorded only in the entry of that recipient as an error value — one
recipient failing never fails the broadcast or another entry. -/
theorem broadcast_one_entry_per_recipient (st : MState)
    (outcome : Int → BOutcome) (hnd : keysNodup st.active_connections) :
    broadcast_recipient_timeout = 30 ∧
    (broadcast_command st outcome).map Prod.fst =
      st.active_connections.map Prod.fst ∧
    ((broadcast_command st outcome).map Prod.fst).Nodup ∧
    (∀ uid, uid ∈ st.active_connections.map Prod.fst →
      aget uid (broadcast_command st outcome) =
        some (send_and_wait_entry (outcome uid))) ∧
    send_and_wait_entry BOutcome.timeout =
      JsonVal.obj [("error",
        JsonVal.str "Timeout waiting for response.")] ∧
    (∀ m, send_and_wait_entry (BOutcome.connError m) =
      JsonVal.obj [("error", JsonVal.str m)]) := by
  refine ⟨rfl, ?_, ?_, ?_, rfl, fun m => rfl⟩
  · unfold broadcast_command
    simp [List.map_map, Function.comp]
  · unfold broadcast_command
    simpa [List.map_map, Function.comp] using hnd
  · intro uid huid
    unfold broadcast_command
    exact aget_map_pair (fun u => send_and_wait_entry (outcome u)) _ uid huid

/-- Witness for C10: broadcasting over the two connected identities 7 and 8,
where 7 times out and 8 replies, yields exactly the two entries, the timeout
recorded only under 7. -/
theorem broadcast_one_entry_per_recipient_witness :
    (broadcast_command
      { active_connections := [(7, 1), (8, 2)], pending_commands := [],
        active_providers := [], provider_http_endpoints := [],
        slots := [], log := [] }
      (fun uid => if uid = 7 then BOutcome.timeout
        else BOutcome.reply (JsonVal.num 1))).map Prod.fst = [7, 8] ∧
    aget 7 (broadcast_command
      { active_connections := [(7, 1), (8, 2)], pending_commands := [],
        active_providers := [], provider_http_endpoints := [],
        slots := [], log := [] }
      (fun uid => if uid = 7 then BOutcome.timeout
        else BOutcome.reply (JsonVal.num 1))) =
      some (JsonVal.obj [("error",
        JsonVal.str "Timeout waiting for response.")]) ∧
    aget 8 (broadcast_command
      { active_connections := [(7, 1), (8, 2)], pending_commands := [],
        active_providers := [], provider_http_endpoints := [],
        slots := [], log := [] }
      (fun uid => if uid = 7 then BOutcome.timeout
        else BOutcome.reply (JsonVal.num 1))) =
      some (JsonVal.num 1) := by
  have h := broadcast_one_entry_per_recipient
    { active_connections := [(7, 1), (8, 2)], pending_commands := [],
      active_providers := [], provider_http_endpoints := [],
      slots := [], log := [] }
    (fun uid => if uid = 7 then BOutcome.timeout
      else BOutcome.reply (JsonVal.num 1))
    (by simp [keysNodup])
  refine ⟨h.2.1, ?_, ?_⟩
  · have := h.2.2.2.1 7 (by simp)
    simpa using this
  · have := h.2.2.2.1 8 (by simp)
    simpa using this
